import Mathlib

/-!
Shallow embedding of the selection-and-split engine of
`graphein/datasets/pdb_data.py` (class `PDBManager`).

Tables are modelled as `List ChainRecord` (one row per chain, insertion
order preserved).  Optional pandas cells (`NaN`) are modelled as `Option`.
Dates (`np.datetime64`) are modelled as integers in `yyyymmdd` form, whose
numeric order agrees with chronological order.  Ratios are modelled as
exact rationals; at every concrete input appearing below the Python float
computation and the rational computation coincide.
-/

namespace PdbData

/-- A pandas cell of the list-valued `ligands` column.  The merge step of
`PDBManager.merge_df_splits` coerces Python `list` cells into `tuple`
cells and (for the two inputs) back, so the representation of the cell is
observable and is tracked explicitly. -/
inductive LigandsCell where
  | ofList (ligs : List String)
  | ofTuple (ligs : List String)
  deriving DecidableEq, Repr

/-- `True` when the cell currently holds a Python `list`. -/
def LigandsCell.isPyList : LigandsCell → Bool
  | .ofList _ => true
  | .ofTuple _ => false

/-- `True` when the cell currently holds a Python `tuple`. -/
def LigandsCell.isPyTuple : LigandsCell → Bool
  | .ofList _ => false
  | .ofTuple _ => true

/-- The underlying ligand codes, forgetting the list/tuple representation. -/
def LigandsCell.content : LigandsCell → List String
  | .ofList ligs => ligs
  | .ofTuple ligs => ligs

/-- `column.apply(tuple)`: a list becomes the tuple of its elements, a
tuple stays itself. -/
def LigandsCell.toTupleCell : LigandsCell → LigandsCell
  | .ofList ligs => .ofTuple ligs
  | .ofTuple ligs => .ofTuple ligs

/-- `column.apply(list)`: a tuple becomes the list of its elements, a list
stays itself. -/
def LigandsCell.toListCell : LigandsCell → LigandsCell
  | .ofList ligs => .ofList ligs
  | .ofTuple ligs => .ofList ligs

/-- One row of the `PDBManager` DataFrame, as produced by
`PDBManager.parse`: the eight always-present columns built from the FASTA
header, the list-valued `ligands` column (`fillna` guarantees it is always
present), and the four columns obtained by `Series.map` lookups, which are
`NaN` (here `none`) when the lookup misses. -/
structure ChainRecord where
  id : String
  pdb : String
  chain : String
  length : Nat
  molecule_type : String
  name : String
  sequence : String
  split : String
  ligands : LigandsCell
  source : Option String
  resolution : Option ℚ
  deposition_date : Option Int
  experiment_type : Option String
  deriving DecidableEq, Repr

/-- A row of `all_rows.drop(self.list_columns, axis=1)`:
`PDBManager.list_columns` is `["ligands"]`, so this is a `ChainRecord`
without its `ligands` cell. -/
structure RowSansLigands where
  id : String
  pdb : String
  chain : String
  length : Nat
  molecule_type : String
  name : String
  sequence : String
  split : String
  source : Option String
  resolution : Option ℚ
  deposition_date : Option Int
  experiment_type : Option String
  deriving DecidableEq, Repr

/-- Dropping the list-valued columns from a row
(`all_rows.drop(self.list_columns, axis=1)`). -/
def dropListColumns (r : ChainRecord) : RowSansLigands :=
  { id := r.id, pdb := r.pdb, chain := r.chain, length := r.length
    molecule_type := r.molecule_type, name := r.name, sequence := r.sequence
    split := r.split, source := r.source, resolution := r.resolution
    deposition_date := r.deposition_date, experiment_type := r.experiment_type }

/-! ## Filter operations (working-table level)

Each `PDBManager` filter computes `df = self.df.loc[mask]` and, when
`update=True`, assigns `self.df = df`.  The pure table-level content is
the filter below; the `update` plumbing is modelled in `MState` further
down.  A pandas comparison against `NaN` is `False`, hence the `none`
branches. -/

/-- `PDBManager.molecule_type`: `self.df.loc[self.df.molecule_type == type]`. -/
def molecule_type_filter (type : String) (df : List ChainRecord) : List ChainRecord :=
  df.filter fun r => r.molecule_type == type

/-- `PDBManager.experiment_type`: rows whose `experiment_type` cell equals
`type`; a `NaN` cell compares unequal. -/
def experiment_type_filter (type : String) (df : List ChainRecord) : List ChainRecord :=
  df.filter fun r =>
    match r.experiment_type with
    | some t => t == type
    | none => false

/-- `PDBManager.longer_than`: `self.df.loc[self.df.length > length]`. -/
def longer_than_filter (length : Nat) (df : List ChainRecord) : List ChainRecord :=
  df.filter fun r => decide (length < r.length)

/-- `PDBManager.shorter_than`: `self.df.loc[self.df.length < length]`. -/
def shorter_than_filter (length : Nat) (df : List ChainRecord) : List ChainRecord :=
  df.filter fun r => decide (r.length < length)

/-- `PDBManager.resolution_better_than_or_equal_to`:
`self.df.loc[self.df.resolution <= resolution]`; a `NaN` resolution makes
the comparison `False`, so the row is dropped. -/
def resolution_better_than_or_equal_to (resolution : ℚ) (df : List ChainRecord) :
    List ChainRecord :=
  df.filter fun r =>
    match r.resolution with
    | some v => decide (v ≤ resolution)
    | none => false

/-- `PDBManager.resolution_worse_than_or_equal_to`:
`self.df.loc[self.df.resolution >= resolution]`; a `NaN` resolution makes
the comparison `False`, so the row is dropped. -/
def resolution_worse_than_or_equal_to (resolution : ℚ) (df : List ChainRecord) :
    List ChainRecord :=
  df.filter fun r =>
    match r.resolution with
    | some v => decide (resolution ≤ v)
    | none => false

/-- The three comparison operators accepted by `PDBManager.oligomeric`
(any other string raises `ValueError`). -/
inductive OligomericComparison where
  | equal
  | less
  | greater
  deriving DecidableEq, Repr

/-- `PDBManager.oligomeric`: keep rows whose `pdb` group size
(`self.df.groupby("pdb")["pdb"].transform("size")`) compares as requested
against `oligomer`. -/
def oligomeric_filter (oligomer : Nat) (comparison : OligomericComparison)
    (df : List ChainRecord) : List ChainRecord :=
  match comparison with
  | .equal => df.filter fun r => df.countP (fun s => s.pdb == r.pdb) == oligomer
  | .less => df.filter fun r => decide (df.countP (fun s => s.pdb == r.pdb) < oligomer)
  | .greater => df.filter fun r => decide (oligomer < df.countP (fun s => s.pdb == r.pdb))

/-- `PDBManager.has_ligand`: `self.df.loc[self.df.ligands.map(lambda x: ligand in x)]`. -/
def has_ligand_filter (ligand : String) (df : List ChainRecord) : List ChainRecord :=
  df.filter fun r => r.ligands.content.contains ligand

/-- `PDBManager.has_ligands`: subset containment of `ligands` against each
row's ligand cell, complemented when `inverse` is set. -/
def has_ligands_filter (ligands : List String) (inverse : Bool)
    (df : List ChainRecord) : List ChainRecord :=
  if inverse then
    df.filter fun r => !(ligands.all fun lig => r.ligands.content.contains lig)
  else
    df.filter fun r => ligands.all fun lig => r.ligands.content.contains lig

/-- `PDBManager.remove_non_standard_alphabet_sequences`: keep rows whose
sequence uses only the 20 standard amino-acid letters. -/
def remove_non_standard_alphabet_sequences_filter (df : List ChainRecord) :
    List ChainRecord :=
  df.filter fun r => r.sequence.toList.all fun c => "ACDEFGHIKLMNPQRSTVWY".toList.contains c

/-- The `self.df.dropna()` call of `PDBManager.filter_by_deposition_date`:
with no `subset` argument pandas drops every row holding *any* `NaN`
cell.  The four columns built by `Series.map` lookups (`source`,
`resolution`, `deposition_date`, `experiment_type`) are the ones that can
be `NaN`; `ligands` was `fillna`-ed to a list at parse time and the other
columns are always present. -/
def dropna_any (df : List ChainRecord) : List ChainRecord :=
  df.filter fun r =>
    r.source.isSome && r.resolution.isSome && r.deposition_date.isSome &&
      r.experiment_type.isSome

/-- The table computed by `PDBManager.filter_by_deposition_date`:
`self.df.dropna().loc[self.df.deposition_date < max_deposition_date]`.
The boolean mask is computed over the full table and aligned by pandas
onto the `dropna()`-ed one (`check_bool_indexer` reindexes the mask, and
every surviving label is present in it), so a row is kept iff it survives
`dropna()` and its deposition date is strictly before the cutoff. -/
def filter_by_deposition_date (max_deposition_date : Int) (df : List ChainRecord) :
    List ChainRecord :=
  (dropna_any df).filter fun r =>
    match r.deposition_date with
    | some d => decide (d < max_deposition_date)
    | none => false

/-! ## `PDBManager._frames_are_sequential`

A line-by-line translation of the loop at `pdb_data.py:189-218`.  The
Python loop *re-assigns* `frames_are_sequential` on every iteration
(`frames_are_sequential = all([...])`), so the value returned is the
conjunction computed for the **last** index only; earlier iterations are
discarded.  The fold below ignores its accumulator for exactly that
reason. -/

/-- Translation of `PDBManager._frames_are_sequential`.  For each
`frame_index` the loop computes the backwards check
(`frame_index == 0 or frame > frames[frame_index - 1]`) and the forwards
check (`frame_index < last and frame < frames[frame_index + 1]`, or
`frame_index == last`), then **overwrites** the result variable with their
conjunction; the returned value is the initial `True` for an empty list
and otherwise the conjunction for the last index. -/
def frames_are_sequential (split_time_frames : List Int) : Bool :=
  let last_frame_index := split_time_frames.length - 1
  (List.range split_time_frames.length).foldl
    (fun _ frame_index =>
      let frame := split_time_frames.getD frame_index 0
      let frames_are_backwards_sequential :=
        frame_index == 0 ||
          (decide (0 < frame_index) &&
            decide (split_time_frames.getD (frame_index - 1) 0 < frame))
      let frames_are_forwards_sequential :=
        (decide (frame_index < last_frame_index) &&
          decide (frame < split_time_frames.getD (frame_index + 1) 0)) ||
          frame_index == last_frame_index
      frames_are_backwards_sequential && frames_are_forwards_sequential)
    true

/-! ## `PDBManager.cluster`: event trace

`cluster` (`pdb_data.py:942-985`) performs a sequence of effects.  The
trace below records them in source order:
* `self.to_fasta("pdb.fasta")` — always;
* `if not is_tool("mmseqs"): log.error(...)` — a log call only, control
  flow continues past it and no exception is raised;
* `if not os.path.exists("pdb_cluster_rep_seq.fasta"): subprocess.run(cmd.split())`
  — when the `mmseqs` executable exists, the `CompletedProcess` is
  discarded and `check=True` is not passed, so a non-zero exit status of
  the clusterer is never inspected and cannot raise (the exit status
  therefore does not even appear as an input below); when the executable
  is missing, the spawn itself fails and `subprocess.run` raises
  `FileNotFoundError`, which propagates and aborts the call before the
  import;
* `self.from_fasta(ids="chain", filename="pdb_cluster_rep_seq.fasta")` —
  reached whenever no exception was raised, including when the clusterer
  was skipped over a stale output file or exited non-zero. -/

/-- One observable effect of `PDBManager.cluster`. -/
inductive ClusterEvent where
  | wroteFasta
  | loggedMissingToolError
  | ranClusterer
  | importedClusterRepresentatives
  | raisedSpawnError
  deriving DecidableEq, Repr

/-- The effect trace of `PDBManager.cluster`, read off lines 962-977 of
`pdb_data.py`, as a function of whether `mmseqs` is installed
(`is_tool("mmseqs")`) and whether `pdb_cluster_rep_seq.fasta` already
exists.  When the clustering step runs (`rep_seq_file_exists = false`)
with the executable missing, `subprocess.run` raises `FileNotFoundError`
at spawn time (`raisedSpawnError`) and nothing after it executes; in
every other case control reaches the import of
`pdb_cluster_rep_seq.fasta`. -/
def cluster_events (mmseqs_installed : Bool) (rep_seq_file_exists : Bool) :
    List ClusterEvent :=
  [ClusterEvent.wroteFasta] ++
    (if mmseqs_installed then [] else [ClusterEvent.loggedMissingToolError]) ++
    (if rep_seq_file_exists then [ClusterEvent.importedClusterRepresentatives]
      else if mmseqs_installed then
        [ClusterEvent.ranClusterer, ClusterEvent.importedClusterRepresentatives]
      else [ClusterEvent.raisedSpawnError])

/-! ## Python primitives used by the proportional splitter -/

/-- Python `int(x)` applied to the exact value `x`: truncation toward
zero.  (`split_sizes = [int(len(df) * ratio) for ratio in split_ratios]`.) -/
def pyInt (q : ℚ) : Int := q.num.tdiv q.den

/-- Python list/`iloc` slicing `l[a:b]` with step 1: negative endpoints
count from the end, endpoints are clamped to the list. -/
def pySlice {α : Type*} (l : List α) (a b : Int) : List α :=
  (l.take (if b < 0 then max ((l.length : Int) + b) 0 else b).toNat).drop
    (if a < 0 then max ((l.length : Int) + a) 0 else a).toNat

/-- A linear congruential generator step (glibc constants), driving the
model of pandas' seeded shuffle. -/
def lcgNext (state : Nat) : Nat := (state * 1103515245 + 12345) % 2147483648

/-- Fisher–Yates extraction with explicit fuel (`fuel` is instantiated
with the list length, so the `0, _ :: _` case is never reached on that
call pattern; fuel keeps the recursion structural so that concrete runs
reduce inside the kernel). -/
def fisherYates {α : Type*} [DecidableEq α] : Nat → Nat → List α → List α
  | 0, _, _ => []
  | _ + 1, _, [] => []
  | fuel + 1, state, x :: xs =>
      let state' := lcgNext state
      let i := state' % (x :: xs).length
      let a := (x :: xs).get ⟨i, Nat.mod_lt _ (Nat.succ_pos _)⟩
      a :: fisherYates fuel state' ((x :: xs).erase a)

/-- Modelled from the spec: `df.sample(frac=1.0, replace=False,
random_state=random_state)` (pandas, external to this repository) —
"Shuffle all R rows uniformly at random using a caller-supplied
deterministic seed (same seed ⇒ identical shuffle ⇒ identical split
assignment, given the same input row order)".  Modelled as a seed-driven
Fisher–Yates shuffle: a permutation of the rows determined entirely by
`random_state` and the input order. -/
def sample_frac1 {α : Type*} [DecidableEq α] (random_state : Nat) (df : List α) :
    List α :=
  fisherYates df.length random_state df

/-! ## Python `dict` as an insertion-ordered association list -/

/-- Python `d[k] = v`: replace in place when the key exists, else append. -/
def dictInsert {β : Type*} (d : List (String × β)) (k : String) (v : β) :
    List (String × β) :=
  if d.any fun kv => decide (kv.1 = k) then
    d.map fun kv => if kv.1 = k then (k, v) else kv
  else d ++ [(k, v)]

/-- Python `d[k]` lookup (first, and in a well-formed dict only, binding). -/
def dictFind? {β : Type*} (d : List (String × β)) (k : String) : Option β :=
  match d with
  | [] => none
  | kv :: rest => if kv.1 = k then some kv.2 else dictFind? rest k

/-! ## `PDBManager.split_df_proportionally` (`pdb_data.py:788-856`) -/

/-- Lines 817-818: `split_sizes = [int(len(df) * ratio) for ratio in split_ratios]`. -/
def computeSplitSizes (n : Nat) (split_ratios : List ℚ) : List Int :=
  split_ratios.map fun ratio => pyInt ((n : ℚ) * ratio)

/-- Lines 817-823: the base sizes followed by the leftover assignment
(`num_remaining_rows = len(df) - sum(split_sizes)`; when positive it is
added to the split at index `assign_leftover_rows_to_split_n`). -/
def splitSizesWithLeftover (n : Nat) (split_ratios : List ℚ)
    (assign_leftover_rows_to_split_n : Nat) : List Int :=
  let split_sizes := computeSplitSizes n split_ratios
  let num_remaining_rows : Int := (n : Int) - split_sizes.sum
  if 0 < num_remaining_rows then
    split_sizes.set assign_leftover_rows_to_split_n
      (split_sizes.getD assign_leftover_rows_to_split_n 0 + num_remaining_rows)
  else split_sizes

/-- Lines 831-838: walk the sizes, cutting `df_sampled.iloc[start:end]`
blocks and storing them in the `df_splits` dict under the split name. -/
def splitLoop (df_sampled : List ChainRecord) :
    List (String × Int) → Int → List (String × List ChainRecord) →
      List (String × List ChainRecord)
  | [], _, acc => acc
  | (split, split_size) :: rest, start_idx, acc =>
      splitLoop df_sampled rest (start_idx + split_size)
        (dictInsert acc split (pySlice df_sampled start_idx (start_idx + split_size)))

/-- Proof-side companion of `splitLoop`: the same walk, producing the
`(name, block)` pairs as a plain list instead of threading the dict
accumulator.  `splitLoop` coincides with it when the split names are
distinct (`splitLoop_eq_append` below). -/
def namedBlocks (df_sampled : List ChainRecord) :
    List (String × Int) → Int → List (String × List ChainRecord)
  | [], _ => []
  | (split, split_size) :: rest, start_idx =>
      (split, pySlice df_sampled start_idx (start_idx + split_size)) ::
        namedBlocks df_sampled rest (start_idx + split_size)

/-- Lines 825-856 of `split_df_proportionally`, after the sizes are
fixed: shuffle (`df.sample(frac=1.0, replace=False, random_state=...)`),
cut the blocks, and run the two row-conservation asserts (`none` models
an `AssertionError`). -/
def splitAndCheck (df : List ChainRecord) (splits : List String)
    (split_sizes : List Int) (random_state : Nat) :
    Option (List (String × List ChainRecord)) :=
  let df_sampled := sample_frac1 random_state df
  let df_splits := splitLoop df_sampled (splits.zip split_sizes) 0 []
  let all_rows := (splits.map fun split => (dictFind? df_splits split).getD []).flatten
  if all_rows.length ≠ df.length then none
  else if ((all_rows.map dropListColumns).dedup).length ≠ df.length then none
  else some df_splits

/-- `PDBManager.split_df_proportionally`.  `none` models an exception:
the two `assert`s at entry, the `IndexError` of the leftover assignment
when the target index is out of range while rows remain, and the two
row-conservation `assert`s before returning. -/
def split_df_proportionally (df : List ChainRecord) (splits : List String)
    (split_ratios : List ℚ) (assign_leftover_rows_to_split_n : Nat := 0)
    (random_state : Nat := 42) : Option (List (String × List ChainRecord)) :=
  if splits.length ≠ split_ratios.length then none
  else if split_ratios.sum ≠ 1 then none
  else if 0 < (df.length : Int) - (computeSplitSizes df.length split_ratios).sum ∧
      splits.length ≤ assign_leftover_rows_to_split_n then none
  else
    splitAndCheck df splits
      (splitSizesWithLeftover df.length split_ratios assign_leftover_rows_to_split_n)
      random_state

/-! ## `PDBManager.merge_df_splits` (`pdb_data.py:858-894`) -/

/-- The coercion loop over `self.list_columns`: `df_split[c] = df_split[c].apply(tuple)`. -/
def coerceRowTuple (r : ChainRecord) : ChainRecord :=
  { r with ligands := r.ligands.toTupleCell }

/-- The restore loop over `self.list_columns`: `df_split[c] = df_split[c].apply(list)`. -/
def coerceRowList (r : ChainRecord) : ChainRecord :=
  { r with ligands := r.ligands.toListCell }

/-- `pd.merge(first, second, how="inner", on=<all columns>)`: one output
row per fully-equal pair, in left-major order. -/
def pdMergeInnerAllColumns (first second : List ChainRecord) : List ChainRecord :=
  first.flatMap fun r => (second.filter fun s => s == r).map fun _ => r

/-- `PDBManager.merge_df_splits`.  The two inputs are mutated in place
(coerced to tuples for the join, then restored to lists), so the result
is the triple `(first after the call, second after the call, merged)`;
the merged table keeps the tuple-coerced `ligands` cells — the restore
loop runs over `[first_df_split, second_df_split]` only — and its `split`
column is overwritten with the split name. -/
def merge_df_splits (first_df_split second_df_split : List ChainRecord)
    (split : String) : List ChainRecord × List ChainRecord × List ChainRecord :=
  let first' := first_df_split.map coerceRowTuple
  let second' := second_df_split.map coerceRowTuple
  let merged_df_split := pdMergeInnerAllColumns first' second'
  let first_restored := first'.map coerceRowList
  let second_restored := second'.map coerceRowList
  let merged_renamed := merged_df_split.map fun r => { r with split := split }
  (first_restored, second_restored, merged_renamed)

/-! ## Selection state (`PDBManager.__init__`, `reset`, `update=True` plumbing) -/

/-- The mutable state of a `PDBManager`: the working table `df`, the
snapshot `source` captured at construction, and the split configuration
with the accumulated `df_splits` mapping (each split name maps to `None`
until its first `update=True` split invocation). -/
structure MState where
  df : List ChainRecord
  source : List ChainRecord
  splits : List String
  split_ratios : Option (List ℚ)
  assign_leftover_rows_to_split_n : Nat
  df_splits : List (String × Option (List ChainRecord))
  deriving DecidableEq, Repr

/-- `PDBManager.__init__`: `self.df = self.parse(); self.source = self.df.copy()`;
`self.df_splits = {split: None for split in splits}`. -/
def mkState (parsed : List ChainRecord) (splits : List String)
    (split_ratios : Option (List ℚ))
    (assign_leftover_rows_to_split_n : Nat) : MState :=
  { df := parsed
    source := parsed
    splits := splits
    split_ratios := split_ratios
    assign_leftover_rows_to_split_n := assign_leftover_rows_to_split_n
    df_splits := splits.map fun split => (split, none) }

/-- `PDBManager.reset`: `self.df = self.source.copy()`. -/
def reset (st : MState) : MState := { st with df := st.source }

/-- One filter operation of the catalogue, as invoked with `update=True`.
`sample_oracle` models `PDBManager.sample`, whose row choice is made by
pandas' RNG outside this core: the oracle function stands for whatever
subset (or with-replacement multiset) of the working table that call
returned. -/
inductive FilterOp where
  | molecule_type (type : String)
  | experiment_type (type : String)
  | longer_than (length : Nat)
  | shorter_than (length : Nat)
  | resolution_better_than_or_equal_to (resolution : ℚ)
  | resolution_worse_than_or_equal_to (resolution : ℚ)
  | oligomeric (oligomer : Nat) (comparison : OligomericComparison)
  | has_ligand (ligand : String)
  | has_ligands (ligands : List String) (inverse : Bool)
  | remove_non_standard_alphabet_sequences
  | filter_by_deposition_date (max_deposition_date : Int)
  | sample_oracle (chosen : List ChainRecord → List ChainRecord)

/-- The table each filter method computes from the working table. -/
def applyFilterOp : FilterOp → List ChainRecord → List ChainRecord
  | .molecule_type type, df => molecule_type_filter type df
  | .experiment_type type, df => experiment_type_filter type df
  | .longer_than length, df => longer_than_filter length df
  | .shorter_than length, df => shorter_than_filter length df
  | .resolution_better_than_or_equal_to resolution, df =>
      resolution_better_than_or_equal_to resolution df
  | .resolution_worse_than_or_equal_to resolution, df =>
      resolution_worse_than_or_equal_to resolution df
  | .oligomeric oligomer comparison, df => oligomeric_filter oligomer comparison df
  | .has_ligand ligand, df => has_ligand_filter ligand df
  | .has_ligands ligands inverse, df => has_ligands_filter ligands inverse df
  | .remove_non_standard_alphabet_sequences, df =>
      remove_non_standard_alphabet_sequences_filter df
  | .filter_by_deposition_date max_deposition_date, df =>
      filter_by_deposition_date max_deposition_date df
  | .sample_oracle chosen, df => chosen df

/-- An `update=True` filter call: every filter method ends in
`if update: self.df = df`; no filter touches `self.source`. -/
def applyFilterOpUpdate (op : FilterOp) (st : MState) : MState :=
  { st with df := applyFilterOp op st.df }

/-- A chain of `update=True` filter calls. -/
def applyFilterOpsUpdate (ops : List FilterOp) (st : MState) : MState :=
  ops.foldl (fun st op => applyFilterOpUpdate op st) st

/-! ## `PDBManager.split_clusters` (`pdb_data.py:896-940`) -/

/-- One iteration of the `for split in self.splits` update loop of
`split_clusters` (lines 929-938): look up the freshly computed block and
the accumulated entry (`none` in the accumulator position models a
`KeyError`, impossible for the states built by `mkState`), merge or
create, and write the result into both dicts. -/
def updateSplitEntry
    (acc : Option (List (String × List ChainRecord) ×
      List (String × Option (List ChainRecord)))) (split : String) :
    Option (List (String × List ChainRecord) ×
      List (String × Option (List ChainRecord))) :=
  acc.bind fun p =>
    (dictFind? p.1 split).bind fun df_split =>
      (dictFind? p.2 split).bind fun previous =>
        match previous with
        | some previous_tbl =>
            let merged := (merge_df_splits previous_tbl df_split split).2.2
            some (dictInsert p.1 split merged, dictInsert p.2 split (some merged))
        | none =>
            some (dictInsert p.1 split df_split, dictInsert p.2 split (some df_split))

/-- `PDBManager.split_clusters`: assert the ratio configuration exists,
split the given table proportionally (with the default
`random_state=42`), and when `update` is set fold the merge-or-create
step over the split names, mutating `self.df_splits` and mirroring each
result into the returned dict. -/
def split_clusters (st : MState) (df : List ChainRecord) (update : Bool) :
    Option (List (String × List ChainRecord) × MState) :=
  st.split_ratios.bind fun split_ratios =>
    (split_df_proportionally df st.splits split_ratios
        st.assign_leftover_rows_to_split_n 42).bind fun df_splits =>
      if update then
        (st.splits.foldl updateSplitEntry (some (df_splits, st.df_splits))).map
          fun p => (p.1, { st with df_splits := p.2 })
      else some (df_splits, st)

/-! ## `PDBManager.split_df_into_time_frames` (`pdb_data.py:987-1046`) -/

/-- Lines 1009-1019: walk the `(split, end_datetime)` pairs, assigning to
each split the rows with `start_datetime <= deposition_date < end_datetime`
and advancing the start boundary; pandas comparisons against `NaT`
(absent date, or absent boundary when the table has no dates) are
`False`. -/
def timeFrameLoop (df : List ChainRecord) :
    List (String × Int) → Option Int → List (String × List ChainRecord) →
      List (String × List ChainRecord)
  | [], _, acc => acc
  | (split, end_datetime) :: rest, start_datetime, acc =>
      let block := df.filter fun r =>
        match r.deposition_date, start_datetime with
        | some d, some s => decide (s ≤ d) && decide (d < end_datetime)
        | _, _ => false
      timeFrameLoop df rest (some end_datetime) (dictInsert acc split block)

/-- `PDBManager.split_df_into_time_frames`.  `none` models an exception:
the cardinality and `_frames_are_sequential` asserts at entry, the
`NameError` on `end_datetime` after an empty loop, and the two
row-conservation asserts before returning. -/
def split_df_into_time_frames (df : List ChainRecord) (splits : List String)
    (split_time_frames : List Int) : Option (List (String × List ChainRecord)) :=
  if splits.length ≠ split_time_frames.length then none
  else if ¬ frames_are_sequential split_time_frames then none
  else
    match split_time_frames.getLast? with
    | none => none
    | some last_end =>
        let start_datetime : Option Int := (df.filterMap (·.deposition_date)).min?
        let df_splits := timeFrameLoop df (splits.zip split_time_frames) start_datetime []
        let max_datetime : Option Int := (df.filterMap (·.deposition_date)).max?
        let num_remaining_rows := (df.filter fun r =>
          match r.deposition_date, max_datetime with
          | some d, some mx => decide (last_end ≤ d) && decide (d ≤ mx)
          | _, _ => false).length
        let all_rows :=
          (splits.map fun split => (dictFind? df_splits split).getD []).flatten
        if all_rows.length ≠ df.length - num_remaining_rows then none
        else if ((all_rows.map dropListColumns).dedup).length ≠
            df.length - num_remaining_rows then none
        else some df_splits

/-! ## Concrete rows for witnesses and counterexamples -/

/-- A concrete, fully populated chain record, indexed so that distinct
indices give distinct rows. -/
def sampleRec (i : Nat) : ChainRecord :=
  { id := toString i ++ "_A"
    pdb := toString i
    chain := "A"
    length := 10 + i
    molecule_type := "protein"
    name := "protein " ++ toString i
    sequence := "ACDE"
    split := "N/A"
    ligands := .ofList ["HEM"]
    source := some "homo sapiens"
    resolution := some 2
    deposition_date := some (20200101 + (i : Int))
    experiment_type := some "diffraction" }

/-- A row whose resolution cell is absent (`NaN`). -/
def recNoResolution : ChainRecord := { sampleRec 0 with resolution := none }

/-- A row dated 2022-06-01. -/
def recDated20220601 : ChainRecord :=
  { sampleRec 0 with deposition_date := some 20220601 }

/-- The row content a split entry carries, disregarding the mutable
`split` label and the list/tuple representation of the ligands cell:
used to compare a split's membership across accumulation steps. -/
def rowKey (r : ChainRecord) : RowSansLigands × List String :=
  ({ dropListColumns r with split := "" }, r.ligands.content)

/-- A concrete four-row table for splitter witnesses. -/
def dfFour : List ChainRecord :=
  [sampleRec 0, sampleRec 1, sampleRec 2, sampleRec 3]

/-- The blocks `split_df_proportionally` computes on `dfFour` with splits
`["a", "b"]`, ratios `[1/2, 1/2]`, leftover target 0 and seed 42. -/
def bsFour : List (String × List ChainRecord) :=
  [("a", [sampleRec 3, sampleRec 2]), ("b", [sampleRec 1, sampleRec 0])]

/-- A selection state whose accumulated `"a"` split already holds
`sampleRec 1`, used to exhibit that a later invocation shrinks it. -/
def stShrink : MState :=
  { df := []
    source := []
    splits := ["a"]
    split_ratios := some [1]
    assign_leftover_rows_to_split_n := 0
    df_splits := [("a", some [sampleRec 1])] }

/-- A selection state whose accumulated `"a"` split holds two rows, used
as input of the subset witness. -/
def stTwo : MState :=
  { stShrink with df_splits := [("a", some [sampleRec 1, sampleRec 2])] }

/-- The row `merge_df_splits` produces when reconciling `sampleRec 1`
with itself under split name `"a"`: the split label is overwritten and
the ligands cell stays tuple-coerced. -/
def mergedSampleRec1 : ChainRecord :=
  { sampleRec 1 with split := "a", ligands := .ofTuple ["HEM"] }

section Theorems

/-! ## Support lemmas: `pyInt` and the size computation -/

/-- Evaluation helper for `pyInt`: once the numerator and denominator of
the exact value are known, `pyInt` is a concrete truncated division. -/
theorem pyInt_of_num_den (q : ℚ) (n : Int) (d : Nat) (hn : q.num = n)
    (hd : q.den = d) : pyInt q = n.tdiv d := by
  rw [pyInt, hn, hd]

/-- On nonnegative values, Python truncation agrees with the floor. -/
theorem pyInt_eq_floor (q : ℚ) (h : 0 ≤ q) : pyInt q = ⌊q⌋ := by
  rw [pyInt, Int.tdiv_eq_ediv (Rat.num_nonneg.mpr h) (Int.natCast_nonneg q.den),
    Rat.floor_def]

/-- `pyInt` of a nonnegative value is nonnegative. -/
theorem pyInt_nonneg (q : ℚ) (h : 0 ≤ q) : 0 ≤ pyInt q := by
  rw [pyInt_eq_floor q h]
  exact Int.floor_nonneg.mpr h

/-- `pyInt` never exceeds the exact value, on nonnegative inputs. -/
theorem pyInt_cast_le (q : ℚ) (h : 0 ≤ q) : (pyInt q : ℚ) ≤ q := by
  rw [pyInt_eq_floor q h]
  exact Int.floor_le q

/-- The size list has one entry per ratio. -/
theorem computeSplitSizes_length (n : Nat) (split_ratios : List ℚ) :
    (computeSplitSizes n split_ratios).length = split_ratios.length := by
  simp [computeSplitSizes]

/-- With nonnegative ratios, every computed size is nonnegative. -/
theorem computeSplitSizes_nonneg (n : Nat) (split_ratios : List ℚ)
    (hnn : ∀ q ∈ split_ratios, 0 ≤ q) :
    ∀ s ∈ computeSplitSizes n split_ratios, 0 ≤ s := by
  intro s hs
  simp only [computeSplitSizes, List.mem_map] at hs
  obtain ⟨q, hq, rfl⟩ := hs
  exact pyInt_nonneg _ (mul_nonneg (Nat.cast_nonneg n) (hnn q hq))

/-- With nonnegative ratios, the sizes sum to at most `n * sum(ratios)`
(exactly `n` once the ratios sum to one). -/
theorem computeSplitSizes_cast_sum_le (n : Nat) (split_ratios : List ℚ)
    (hnn : ∀ q ∈ split_ratios, 0 ≤ q) :
    (((computeSplitSizes n split_ratios).sum : Int) : ℚ) ≤
      (n : ℚ) * split_ratios.sum := by
  induction split_ratios with
  | nil => simp [computeSplitSizes]
  | cons q qs ih =>
      have hq : (0 : ℚ) ≤ q := hnn q (List.mem_cons_self q qs)
      have hqs : ∀ x ∈ qs, (0 : ℚ) ≤ x := fun x hx => hnn x (List.mem_cons_of_mem _ hx)
      have h1 : (pyInt ((n : ℚ) * q) : ℚ) ≤ (n : ℚ) * q :=
        pyInt_cast_le _ (mul_nonneg (Nat.cast_nonneg n) hq)
      have h2 := ih hqs
      simp only [computeSplitSizes, List.map_cons, List.sum_cons] at h2 ⊢
      rw [Int.cast_add]
      calc (pyInt ((n : ℚ) * q) : ℚ) +
            (((List.map (fun r => pyInt ((n : ℚ) * r)) qs).sum : Int) : ℚ)
          ≤ (n : ℚ) * q + (n : ℚ) * qs.sum := add_le_add h1 h2
        _ = (n : ℚ) * (q + qs.sum) := by ring

/-- With nonnegative ratios summing to one, the sizes sum to at most `n`. -/
theorem computeSplitSizes_sum_le (n : Nat) (split_ratios : List ℚ)
    (hnn : ∀ q ∈ split_ratios, 0 ≤ q) (hsum : split_ratios.sum = 1) :
    (computeSplitSizes n split_ratios).sum ≤ (n : Int) := by
  have h := computeSplitSizes_cast_sum_le n split_ratios hnn
  rw [hsum, mul_one] at h
  exact_mod_cast h

/-- Adding `x` to the entry at an in-range index shifts the sum by `x`. -/
theorem sum_set_getD_add (L : List Int) (j : Nat) (x : Int) (h : j < L.length) :
    (L.set j (L.getD j 0 + x)).sum = L.sum + x := by
  induction L generalizing j with
  | nil => simp at h
  | cons a l ih =>
      cases j with
      | zero => simp [List.getD]; ring
      | succ j =>
          simp only [List.set_cons_succ, List.sum_cons, List.getD_cons_succ]
          rw [ih j (by simpa using h)]
          ring

/-- Under a valid configuration (nonnegative ratios summing to one, and
an in-range leftover target whenever rows remain), the final sizes are
nonnegative, sum to exactly `n`, and keep one entry per ratio. -/
theorem splitSizesWithLeftover_spec (n : Nat) (split_ratios : List ℚ) (j : Nat)
    (hnn : ∀ q ∈ split_ratios, 0 ≤ q) (hsum : split_ratios.sum = 1)
    (hguard : ¬(0 < (n : Int) - (computeSplitSizes n split_ratios).sum ∧
      split_ratios.length ≤ j)) :
    (∀ s ∈ splitSizesWithLeftover n split_ratios j, 0 ≤ s) ∧
      (splitSizesWithLeftover n split_ratios j).sum = (n : Int) ∧
      (splitSizesWithLeftover n split_ratios j).length = split_ratios.length := by
  have hb_nonneg := computeSplitSizes_nonneg n split_ratios hnn
  have hb_le := computeSplitSizes_sum_le n split_ratios hnn hsum
  have hb_len := computeSplitSizes_length n split_ratios
  by_cases hrem : 0 < (n : Int) - (computeSplitSizes n split_ratios).sum
  · have hj : j < (computeSplitSizes n split_ratios).length := by
      rw [hb_len]
      by_contra hj'
      exact hguard ⟨hrem, by omega⟩
    have hset := sum_set_getD_add (computeSplitSizes n split_ratios) j
      ((n : Int) - (computeSplitSizes n split_ratios).sum) hj
    refine ⟨?_, ?_, ?_⟩
    · intro s hs
      rw [splitSizesWithLeftover, if_pos hrem] at hs
      rcases List.mem_or_eq_of_mem_set hs with h | rfl
      · exact hb_nonneg s h
      · have : (computeSplitSizes n split_ratios).getD j 0 =
            (computeSplitSizes n split_ratios)[j] := List.getD_eq_getElem _ _ hj
        have hmem : (computeSplitSizes n split_ratios)[j] ∈
            computeSplitSizes n split_ratios := List.getElem_mem hj
        have := hb_nonneg _ hmem
        omega
    · rw [splitSizesWithLeftover, if_pos hrem, hset]
      omega
    · rw [splitSizesWithLeftover, if_pos hrem, List.length_set, hb_len]
  · refine ⟨?_, ?_, ?_⟩
    · intro s hs
      rw [splitSizesWithLeftover, if_neg hrem] at hs
      exact hb_nonneg s hs
    · rw [splitSizesWithLeftover, if_neg hrem]
      omega
    · rw [splitSizesWithLeftover, if_neg hrem, hb_len]

/-! ## Support lemmas: the seeded shuffle is a permutation -/

/-- The fuelled Fisher–Yates walk permutes its input when given enough
fuel. -/
theorem fisherYates_perm {α : Type*} [DecidableEq α] :
    ∀ (fuel state : Nat) (l : List α), l.length ≤ fuel →
      (fisherYates fuel state l).Perm l := by
  intro fuel
  induction fuel with
  | zero =>
      intro state l h
      have : l = [] := List.length_eq_zero.mp (Nat.le_zero.mp h)
      subst this
      simp [fisherYates]
  | succ n ih =>
      intro state l h
      match l with
      | [] => simp [fisherYates]
      | x :: xs =>
          rw [fisherYates]
          have hmem : (x :: xs).get
              ⟨lcgNext state % (x :: xs).length,
                Nat.mod_lt _ (Nat.succ_pos _)⟩ ∈ x :: xs := List.get_mem _ _ _
          have hlen : ((x :: xs).erase ((x :: xs).get
              ⟨lcgNext state % (x :: xs).length,
                Nat.mod_lt _ (Nat.succ_pos _)⟩)).length ≤ n := by
            rw [List.length_erase_of_mem hmem]
            simpa using Nat.le_of_succ_le_succ h
          exact ((ih (lcgNext state) _ hlen).cons _).trans
            (List.perm_cons_erase hmem).symm

/-- The modelled `df.sample(frac=1.0)` is a permutation of its input. -/
theorem sample_frac1_perm {α : Type*} [DecidableEq α] (random_state : Nat)
    (df : List α) : (sample_frac1 random_state df).Perm df :=
  fisherYates_perm df.length random_state df le_rfl

/-! ## Support lemmas: the dict accumulator -/

/-- Inserting a fresh key appends. -/
theorem dictInsert_append {β : Type*} (d : List (String × β)) (k : String)
    (v : β) (h : ∀ kv ∈ d, kv.1 ≠ k) : dictInsert d k v = d ++ [(k, v)] := by
  have hany : ¬((d.any fun kv => decide (kv.1 = k)) = true) := by
    rw [List.any_eq_true]
    rintro ⟨kv, hkv, hk⟩
    exact h kv hkv (of_decide_eq_true hk)
  rw [dictInsert, if_neg hany]

/-- Looking every key of a dict with distinct keys back up returns the
values, in order. -/
theorem map_keys_dictFind? {β : Type*} (d : List (String × β)) (x : β)
    (h : (d.map Prod.fst).Nodup) :
    (d.map Prod.fst).map (fun k => (dictFind? d k).getD x) = d.map Prod.snd := by
  induction d with
  | nil => rfl
  | cons kv rest ih =>
      rw [List.map_cons, List.nodup_cons] at h
      have hhead : (dictFind? (kv :: rest) kv.1).getD x = kv.2 := by
        rw [dictFind?, if_pos rfl]
        rfl
      have hcongr : ∀ k' ∈ rest.map Prod.fst,
          (dictFind? (kv :: rest) k').getD x = (dictFind? rest k').getD x := by
        intro k' hk'
        rw [dictFind?, if_neg]
        intro hkk
        exact h.1 (hkk ▸ hk')
      simp only [List.map_cons]
      rw [hhead, List.map_congr_left hcongr, ih h.2]

/-- With distinct split names and a key-fresh accumulator, the dict walk
of `splitLoop` is the accumulator followed by the plain block list. -/
theorem splitLoop_eq_append (l : List ChainRecord) :
    ∀ (pairs : List (String × Int)) (start : Int)
      (acc : List (String × List ChainRecord)),
      (∀ k ∈ pairs.map Prod.fst, ∀ kv ∈ acc, kv.1 ≠ k) →
      (pairs.map Prod.fst).Nodup →
      splitLoop l pairs start acc = acc ++ namedBlocks l pairs start := by
  intro pairs
  induction pairs with
  | nil => intro start acc _ _; simp [splitLoop, namedBlocks]
  | cons p rest ih =>
      intro start acc hfresh hnodup
      obtain ⟨sp, sz⟩ := p
      simp only [List.map_cons, List.nodup_cons] at hnodup
      have hfresh' : ∀ k ∈ rest.map Prod.fst,
          ∀ kv ∈ acc ++ [(sp, pySlice l start (start + sz))], kv.1 ≠ k := by
        intro k hk kv hkv
        rcases List.mem_append.mp hkv with hmem | hmem
        · exact hfresh k (by simp [hk]) kv hmem
        · simp only [List.mem_singleton] at hmem
          subst hmem
          intro hkk
          have hsk : sp = k := hkk
          exact hnodup.1 (hsk ▸ hk)
      rw [splitLoop, namedBlocks,
        dictInsert_append _ _ _ (hfresh sp (by simp)),
        ih (start + sz) _ hfresh' hnodup.2]
      simp

/-- The names of the plain block list are the input names. -/
theorem namedBlocks_keys (l : List ChainRecord) :
    ∀ (pairs : List (String × Int)) (start : Int),
      (namedBlocks l pairs start).map Prod.fst = pairs.map Prod.fst := by
  intro pairs
  induction pairs with
  | nil => intro start; rfl
  | cons p rest ih =>
      intro start
      obtain ⟨sp, sz⟩ := p
      simp [namedBlocks, ih]

/-! ## Support lemmas: slices concatenate back to the whole table -/

/-- On nonnegative endpoints, the Python slice is drop-after-take. -/
theorem pySlice_of_nonneg {α : Type*} (l : List α) (a b : Int) (ha : 0 ≤ a)
    (hb : 0 ≤ b) : pySlice l a b = (l.take b.toNat).drop a.toNat := by
  rw [pySlice, if_neg (not_lt.mpr ha), if_neg (not_lt.mpr hb)]

/-- Splitting a list at `b` and re-concatenating after dropping `a ≤ b`
recovers the drop at `a`. -/
theorem drop_take_append_drop {α : Type*} (l : List α) (a b : Nat)
    (hab : a ≤ b) (hb : b ≤ l.length) :
    (l.take b).drop a ++ l.drop b = l.drop a := by
  have h2 : a ≤ (l.take b).length := by
    rw [List.length_take]
    omega
  conv_rhs => rw [← List.take_append_drop b l, List.drop_append_of_le_length h2]

/-- Concatenating the consecutive slices of `namedBlocks` yields the
table from the start boundary on: with sizes summing to the remaining
length, nothing is lost, duplicated or fabricated. -/
theorem namedBlocks_flatten (l : List ChainRecord) :
    ∀ (pairs : List (String × Int)) (start : Int), 0 ≤ start →
      (∀ p ∈ pairs, 0 ≤ p.2) →
      start + (pairs.map Prod.snd).sum = (l.length : Int) →
      ((namedBlocks l pairs start).map Prod.snd).flatten = l.drop start.toNat := by
  intro pairs
  induction pairs with
  | nil =>
      intro start _ _ hsum
      simp only [List.map_nil, List.sum_nil, add_zero] at hsum
      rw [namedBlocks]
      simp only [List.map_nil, List.flatten_nil]
      exact (List.drop_eq_nil_of_le (by omega)).symm
  | cons p rest ih =>
      intro start hstart hnn hsum
      obtain ⟨sp, sz⟩ := p
      have hsz : (0 : Int) ≤ sz := hnn (sp, sz) (by simp)
      have hrest_nn : ∀ p ∈ rest, (0 : Int) ≤ p.2 :=
        fun p hp => hnn p (List.mem_cons_of_mem _ hp)
      have hrest_sum_nn : (0 : Int) ≤ (rest.map Prod.snd).sum := by
        refine List.sum_nonneg ?_
        intro x hx
        obtain ⟨p, hp, rfl⟩ := List.mem_map.mp hx
        exact hrest_nn p hp
      simp only [List.map_cons, List.sum_cons] at hsum
      have hih := ih (start + sz) (by omega) hrest_nn (by omega)
      rw [namedBlocks]
      simp only [List.map_cons, List.flatten_cons]
      rw [hih, pySlice_of_nonneg l start (start + sz) hstart (by omega)]
      have hcast : ((start + sz).toNat : Int) = start + sz := Int.toNat_of_nonneg (by omega)
      refine drop_take_append_drop l start.toNat (start + sz).toNat (by omega) ?_
      omega

/-! ## Claim C1 -/

/-- Claim C1: for every input table and every valid split configuration
(distinct names, as many nonnegative ratios as names), whenever
`split_df_proportionally` returns blocks, the block lengths sum to
exactly the input row count, the concatenation of all blocks is a
permutation of the input rows (no row fabricated, none lost, none
assigned to two splits), and — after normalizing the list-valued ligands
column to its hashable tuple form — it contains no duplicate rows.
Mismatched cardinalities, a ratio sum other than one, or a duplicate-row
input make the operation fail (`none`) instead. -/
theorem split_df_proportionally_conserves_rows
    (df : List ChainRecord) (splits : List String) (split_ratios : List ℚ)
    (j random_state : Nat) (bs : List (String × List ChainRecord))
    (hnodup : splits.Nodup)
    (hnn : ∀ q ∈ split_ratios, 0 ≤ q)
    (hres : split_df_proportionally df splits split_ratios j random_state =
      some bs) :
    ((bs.map fun p => p.2.length).sum = df.length) ∧
      ((bs.map Prod.snd).flatten).Perm df ∧
      ((bs.map Prod.snd).flatten.map coerceRowTuple).Nodup := by
  simp only [split_df_proportionally] at hres
  split_ifs at hres with h1 h2 h3
  have hlen : splits.length = split_ratios.length := not_ne_iff.mp h1
  have hsum : split_ratios.sum = 1 := not_ne_iff.mp h2
  have hguard : ¬(0 < (df.length : Int) -
      (computeSplitSizes df.length split_ratios).sum ∧
      split_ratios.length ≤ j) := by
    rw [← hlen]
    exact h3
  obtain ⟨hsz_nn, hsz_sum, hsz_len⟩ :=
    splitSizesWithLeftover_spec df.length split_ratios j hnn hsum hguard
  have hperm : (sample_frac1 random_state df).Perm df := sample_frac1_perm _ _
  have hslen : (sample_frac1 random_state df).length = df.length :=
    hperm.length_eq
  simp only [splitAndCheck] at hres
  split_ifs at hres with h4 h5
  have hbs : bs = splitLoop (sample_frac1 random_state df)
      (splits.zip (splitSizesWithLeftover df.length split_ratios j)) 0 [] :=
    (Option.some.inj hres).symm
  rw [← hbs] at h4 h5
  have hlen_le : splits.length ≤
      (splitSizesWithLeftover df.length split_ratios j).length := by
    rw [hsz_len, ← hlen]
  have hlen_ge : (splitSizesWithLeftover df.length split_ratios j).length ≤
      splits.length := by
    rw [hsz_len, ← hlen]
  have hkeys : (splits.zip (splitSizesWithLeftover df.length split_ratios j)).map
      Prod.fst = splits := List.map_fst_zip _ _ hlen_le
  have hvals : (splits.zip (splitSizesWithLeftover df.length split_ratios j)).map
      Prod.snd = splitSizesWithLeftover df.length split_ratios j :=
    List.map_snd_zip _ _ hlen_ge
  have hkeysnd : ((splits.zip
      (splitSizesWithLeftover df.length split_ratios j)).map Prod.fst).Nodup := by
    rw [hkeys]
    exact hnodup
  have hbs2 : bs = namedBlocks (sample_frac1 random_state df)
      (splits.zip (splitSizesWithLeftover df.length split_ratios j)) 0 := by
    rw [hbs, splitLoop_eq_append _ _ 0 []
      (by intro k _ kv hkv; simp at hkv) hkeysnd]
    simp
  have hbskeys : bs.map Prod.fst = splits := by
    rw [hbs2, namedBlocks_keys, hkeys]
  have hbsnodup : (bs.map Prod.fst).Nodup := by
    rw [hbskeys]
    exact hnodup
  have hflat : (bs.map Prod.snd).flatten = sample_frac1 random_state df := by
    rw [hbs2]
    have hzip_nn : ∀ p ∈ splits.zip
        (splitSizesWithLeftover df.length split_ratios j), (0 : Int) ≤ p.2 := by
      intro p hp
      obtain ⟨a, b⟩ := p
      exact hsz_nn b (List.of_mem_zip hp).2
    have hzip_sum : (0 : Int) + ((splits.zip
        (splitSizesWithLeftover df.length split_ratios j)).map Prod.snd).sum =
        ((sample_frac1 random_state df).length : Int) := by
      rw [hvals, hsz_sum, hslen, zero_add]
    have := namedBlocks_flatten (sample_frac1 random_state df)
      (splits.zip (splitSizesWithLeftover df.length split_ratios j)) 0
      le_rfl hzip_nn hzip_sum
    simpa using this
  have hall : (splits.map fun split => (dictFind? bs split).getD []).flatten =
      (bs.map Prod.snd).flatten := by
    conv_lhs => rw [← hbskeys]
    rw [map_keys_dictFind? bs [] hbsnodup]
  have hflatlen : (bs.map Prod.snd).flatten.length = df.length := by
    rw [hflat, hslen]
  refine ⟨?_, ?_, ?_⟩
  · have hmm : (bs.map fun p => p.2.length) = (bs.map Prod.snd).map List.length := by
      rw [List.map_map]
      rfl
    rw [hmm, ← List.length_flatten, hflatlen]
  · rw [hflat]
    exact hperm
  · have h5' : (((bs.map Prod.snd).flatten.map dropListColumns).dedup).length =
        df.length := by
      rw [← hall]
      exact not_ne_iff.mp h5
    have hmaplen : ((bs.map Prod.snd).flatten.map dropListColumns).length =
        df.length := by
      rw [List.length_map, hflatlen]
    have hnodup_drop : ((bs.map Prod.snd).flatten.map dropListColumns).Nodup :=
      List.dedup_eq_self.mp
        ((List.dedup_sublist _).eq_of_length (by rw [h5', hmaplen]))
    have hcomp : (bs.map Prod.snd).flatten.map dropListColumns =
        ((bs.map Prod.snd).flatten.map coerceRowTuple).map dropListColumns := by
      rw [List.map_map]
      rfl
    rw [hcomp] at hnodup_drop
    exact List.Nodup.of_map dropListColumns hnodup_drop

/-! ## Concrete evaluation of the proportional splitter

Rational arithmetic does not reduce inside the kernel, so concrete runs
are evaluated by first discharging the ratio guards with `norm_num` and
then letting the remaining (rational-free) pipeline compute. -/

/-- A valid configuration reduces `split_df_proportionally` to its
rational-free tail. -/
theorem split_df_proportionally_eval (df : List ChainRecord)
    (splits : List String) (split_ratios : List ℚ) (j random_state : Nat)
    (hlen : splits.length = split_ratios.length)
    (hsum : split_ratios.sum = 1)
    (hguard : ¬(0 < (df.length : Int) -
      (computeSplitSizes df.length split_ratios).sum ∧
      splits.length ≤ j)) :
    split_df_proportionally df splits split_ratios j random_state =
      splitAndCheck df splits
        (splitSizesWithLeftover df.length split_ratios j) random_state := by
  simp only [split_df_proportionally]
  rw [if_neg (not_ne_iff.mpr hlen), if_neg (not_ne_iff.mpr hsum), if_neg hguard]

/-- Size evaluation for the ratio list `[1/2, 1/2]` on four rows. -/
theorem splitSizesWithLeftover_four :
    splitSizesWithLeftover 4 [(1 : ℚ)/2, 1/2] 0 = [2, 2] := by
  have hp : pyInt (((4 : ℕ) : ℚ) * (1/2)) = 2 :=
    (pyInt_of_num_den _ 2 1 (by norm_num) (by norm_num)).trans (by decide)
  have hc : computeSplitSizes 4 [(1 : ℚ)/2, 1/2] = [2, 2] := by
    simp only [computeSplitSizes, List.map_cons, List.map_nil, hp]
  simp only [splitSizesWithLeftover, hc]
  decide

/-- Size evaluation for the trivial ratio list `[1]` on one row. -/
theorem splitSizesWithLeftover_one :
    splitSizesWithLeftover 1 [(1 : ℚ)] 0 = [1] := by
  have hp : pyInt (((1 : ℕ) : ℚ) * 1) = 1 :=
    (pyInt_of_num_den _ 1 1 (by norm_num) (by norm_num)).trans (by decide)
  have hc : computeSplitSizes 1 [(1 : ℚ)] = [1] := by
    simp only [computeSplitSizes, List.map_cons, List.map_nil, hp]
  simp only [splitSizesWithLeftover, hc]
  decide

/-- The seeded shuffle of a one-row table is that table. -/
theorem sample_frac1_singleton (r : ChainRecord) :
    sample_frac1 42 [r] = [r] :=
  List.perm_singleton.mp (sample_frac1_perm 42 [r])

/-- A one-row table with the trivial ratio list splits into the single
block holding that row. -/
theorem split_df_proportionally_singleton (r : ChainRecord) :
    split_df_proportionally [r] ["a"] [(1 : ℚ)] 0 42 = some [("a", [r])] := by
  have hlen1 : ([r] : List ChainRecord).length = 1 := rfl
  rw [split_df_proportionally_eval [r] ["a"] [(1 : ℚ)] 0 42 (by decide)
    (by norm_num) (fun h => absurd h.2 (by decide))]
  rw [hlen1, splitSizesWithLeftover_one]
  simp only [splitAndCheck]
  rw [sample_frac1_singleton r]
  rfl

/-- The canonical four-row run: concrete blocks of
`split_df_proportionally` on `dfFour`. -/
theorem split_df_proportionally_dfFour :
    split_df_proportionally dfFour ["a", "b"] [(1 : ℚ)/2, 1/2] 0 42 =
      some bsFour := by
  have hlen4 : dfFour.length = 4 := rfl
  rw [split_df_proportionally_eval dfFour ["a", "b"] [(1 : ℚ)/2, 1/2] 0 42
    (by decide) (by norm_num) (fun h => absurd h.2 (by decide))]
  rw [hlen4, splitSizesWithLeftover_four]
  decide

/-- Witness for C1 at the concrete four-row run. -/
theorem split_df_proportionally_conserves_rows_witness :
    ((bsFour.map fun p => p.2.length).sum = dfFour.length) ∧
      ((bsFour.map Prod.snd).flatten).Perm dfFour ∧
      ((bsFour.map Prod.snd).flatten.map coerceRowTuple).Nodup :=
  split_df_proportionally_conserves_rows dfFour ["a", "b"] [(1 : ℚ)/2, 1/2]
    0 42 bsFour (by decide)
    (by
      intro q hq
      simp only [List.mem_cons, List.not_mem_nil, or_false] at hq
      rcases hq with rfl | rfl <;> norm_num)
    split_df_proportionally_dfFour

/-! ## Claim C7 -/

/-- Claim C7: `split_df_proportionally` is deterministic — two runs with
the same seed (`random_state`), the same input row order and the same
configuration produce identical split assignments.  In this embedding
the shuffle is a function of the seed and the input order alone
(modelled from the spec for pandas' seeded `sample`), so any two run
outcomes coincide. -/
theorem split_df_proportionally_deterministic
    (df : List ChainRecord) (splits : List String) (split_ratios : List ℚ)
    (j random_state : Nat)
    (out1 out2 : Option (List (String × List ChainRecord)))
    (h1 : split_df_proportionally df splits split_ratios j random_state = out1)
    (h2 : split_df_proportionally df splits split_ratios j random_state = out2) :
    out1 = out2 :=
  h1.symm.trans h2

/-- Witness for C7: two runs on the four-row table with seed 42, one
taken symbolically and one evaluated, agree. -/
theorem split_df_proportionally_deterministic_witness :
    split_df_proportionally dfFour ["a", "b"] [(1 : ℚ)/2, 1/2] 0 42 =
      some bsFour :=
  split_df_proportionally_deterministic dfFour ["a", "b"] [(1 : ℚ)/2, 1/2]
    0 42 (split_df_proportionally dfFour ["a", "b"] [(1 : ℚ)/2, 1/2] 0 42)
    (some bsFour) rfl split_df_proportionally_dfFour

/-! ## Claim C9 -/

/-- Claim C9: for every working table and every threshold, a row with an
absent resolution value is excluded by both
`resolution_better_than_or_equal_to` and
`resolution_worse_than_or_equal_to` — an absent resolution never
satisfies either numeric comparison. -/
theorem absent_resolution_excluded_by_both_filters
    (df : List ChainRecord) (resolution : ℚ) (r : ChainRecord)
    (habs : r.resolution = none) :
    r ∉ resolution_better_than_or_equal_to resolution df ∧
      r ∉ resolution_worse_than_or_equal_to resolution df := by
  constructor
  · intro h
    have h' := (List.mem_filter.mp h).2
    simp [habs] at h'
  · intro h
    have h' := (List.mem_filter.mp h).2
    simp [habs] at h'

/-- Witness for C9 at a concrete row with absent resolution and
threshold 2. -/
theorem absent_resolution_excluded_by_both_filters_witness :
    recNoResolution ∉ resolution_better_than_or_equal_to 2 [recNoResolution] ∧
      recNoResolution ∉ resolution_worse_than_or_equal_to 2 [recNoResolution] :=
  absent_resolution_excluded_by_both_filters [recNoResolution] 2 recNoResolution
    (by decide)

/-! ## Claim C4 -/

/-- Claim C4 (code-bug exhibit): `filter_by_deposition_date` calls
`self.df.dropna()` with no `subset`, dropping every row with *any*
absent cell — contradicting the source's own comment
`# Drop missing deposition dates`.  The row below has a present
deposition date (2020-01-01) strictly before the cutoff (2023-01-01) and
only its resolution absent; the claim says such a row must be kept, but
the code drops it.  A fully populated row dated the same day is kept,
isolating the absent resolution as the cause. -/
theorem filter_by_deposition_date_drops_row_with_absent_resolution :
    filter_by_deposition_date 20230101
        [{ sampleRec 0 with resolution := none }] = [] ∧
      ({ sampleRec 0 with resolution := none } : ChainRecord).deposition_date =
        some 20200101 ∧
      ((20200101 : Int) < 20230101) ∧
      filter_by_deposition_date 20230101 [sampleRec 0] = [sampleRec 0] := by
  refine ⟨by decide, by decide, by decide, by decide⟩

/-! ## Claim C2 -/

/-- Claim C2 (code-bug exhibit): `_frames_are_sequential` re-assigns its
result variable on every loop iteration instead of conjoining, so only
the checks for the **last** index survive.  The spec's non-monotonic
example `[2022-01-01, 2021-06-01, 2023-01-01]` (first pair out of order)
is therefore *accepted*, and `split_df_into_time_frames` proceeds to
produce splits instead of failing. -/
theorem frames_are_sequential_accepts_non_monotonic :
    frames_are_sequential [20220101, 20210601, 20230101] = true ∧
      ((20210601 : Int) < 20220101) ∧
      (split_df_into_time_frames [recDated20220601] ["train", "val", "test"]
          [20220101, 20210601, 20230101]).isSome = true := by
  refine ⟨by decide, by decide, by decide⟩

/-! ## Claim C5 -/

/-- Claim C5 (code-bug exhibit): `PDBManager.cluster` does not turn
clusterer failures into an explicit error before importing.  With
`mmseqs` missing but a stale `pdb_cluster_rep_seq.fasta` present, it
merely logs the missing-tool failure and continues, importing the stale
clustering result with no error raised; and with `mmseqs` installed it
proceeds to the import regardless of the clusterer's exit status, which
is never inspected (`subprocess.run` without `check=True`).  Only the
spawn-failure path — tool missing *and* no pre-existing output — aborts
before the import, via the `FileNotFoundError` that `subprocess.run`
raises, not via an error raised by `cluster` itself. -/
theorem cluster_logs_missing_tool_and_proceeds_to_import :
    cluster_events false true =
        [ClusterEvent.wroteFasta, ClusterEvent.loggedMissingToolError,
          ClusterEvent.importedClusterRepresentatives] ∧
      ClusterEvent.raisedSpawnError ∉ cluster_events false true ∧
      cluster_events true false =
        [ClusterEvent.wroteFasta, ClusterEvent.ranClusterer,
          ClusterEvent.importedClusterRepresentatives] ∧
      cluster_events false false =
        [ClusterEvent.wroteFasta, ClusterEvent.loggedMissingToolError,
          ClusterEvent.raisedSpawnError] := by
  refine ⟨by decide, by decide, by decide, by decide⟩

/-! ## Claim C6 -/

/-- Claim C6: ratio fidelity of the size computation of
`split_df_proportionally` (lines 817-823).  For 1000 rows and ratios
`[0.8, 0.1, 0.1]` the sizes are exactly `[800, 100, 100]` (no remainder);
for 999 rows the base sizes are `[799, 99, 99]`, the remainder is 2, and
with leftover target 0 the final sizes are `[801, 99, 99]`. -/
theorem split_sizes_ratio_fidelity :
    splitSizesWithLeftover 1000 [0.8, 0.1, 0.1] 0 = [800, 100, 100] ∧
      computeSplitSizes 999 [0.8, 0.1, 0.1] = [799, 99, 99] ∧
      ((999 : Int) - (computeSplitSizes 999 [0.8, 0.1, 0.1]).sum = 2) ∧
      splitSizesWithLeftover 999 [0.8, 0.1, 0.1] 0 = [801, 99, 99] := by
  have e1000a : pyInt (((1000 : ℕ) : ℚ) * 0.8) = 800 :=
    (pyInt_of_num_den _ 800 1 (by norm_num) (by norm_num)).trans (by decide)
  have e1000b : pyInt (((1000 : ℕ) : ℚ) * 0.1) = 100 :=
    (pyInt_of_num_den _ 100 1 (by norm_num) (by norm_num)).trans (by decide)
  have e999a : pyInt (((999 : ℕ) : ℚ) * 0.8) = 799 :=
    (pyInt_of_num_den _ 3996 5 (by norm_num) (by norm_num)).trans (by decide)
  have e999b : pyInt (((999 : ℕ) : ℚ) * 0.1) = 99 :=
    (pyInt_of_num_den _ 999 10 (by norm_num) (by norm_num)).trans (by decide)
  have h1000 : computeSplitSizes 1000 [0.8, 0.1, 0.1] = [800, 100, 100] := by
    simp only [computeSplitSizes, List.map_cons, List.map_nil, e1000a, e1000b]
  have h999 : computeSplitSizes 999 [0.8, 0.1, 0.1] = [799, 99, 99] := by
    simp only [computeSplitSizes, List.map_cons, List.map_nil, e999a, e999b]
  refine ⟨?_, h999, ?_, ?_⟩
  · simp only [splitSizesWithLeftover, h1000]
    decide
  · rw [h999]
    decide
  · simp only [splitSizesWithLeftover, h999]
    decide

/-! ## Claim C8 -/

/-- No `update=True` filter call touches the `source` snapshot. -/
theorem applyFilterOpsUpdate_source (ops : List FilterOp) (st : MState) :
    (applyFilterOpsUpdate ops st).source = st.source := by
  induction ops generalizing st with
  | nil => rfl
  | cons op rest ih =>
      simpa [applyFilterOpsUpdate, applyFilterOpUpdate] using
        ih (applyFilterOpUpdate op st)

/-- Claim C8: for every Selection and every finite sequence of filter
operations applied with `update=True`, a subsequent `reset()` makes the
working table equal (hence row-set-equal) to the original snapshot
captured at construction. -/
theorem reset_after_filters_restores_original
    (parsed : List ChainRecord) (splits : List String)
    (split_ratios : Option (List ℚ)) (leftover : Nat) (ops : List FilterOp) :
    (reset (applyFilterOpsUpdate ops
        (mkState parsed splits split_ratios leftover))).df = parsed := by
  have h := applyFilterOpsUpdate_source ops (mkState parsed splits split_ratios leftover)
  simpa [reset, mkState] using h

/-! ## Claim C10 -/

/-- The `apply(list)` coercion always leaves a Python list cell. -/
theorem LigandsCell.toListCell_isPyList (c : LigandsCell) :
    c.toListCell.isPyList = true := by
  cases c <;> rfl

/-- The `apply(tuple)` coercion always leaves a Python tuple cell. -/
theorem LigandsCell.toTupleCell_isPyTuple (c : LigandsCell) :
    c.toTupleCell.isPyTuple = true := by
  cases c <;> rfl

/-- Every row of the inner merge comes from the (tuple-coerced) left
input. -/
theorem mem_pdMergeInnerAllColumns {first second : List ChainRecord}
    {r : ChainRecord} (h : r ∈ pdMergeInnerAllColumns first second) :
    r ∈ first := by
  simp only [pdMergeInnerAllColumns, List.mem_flatMap, List.mem_map,
    List.mem_filter] at h
  obtain ⟨a, ha, _, _, heq⟩ := h
  exact heq ▸ ha

/-- Claim C10: for input tables whose ligands column holds lists,
`merge_df_splits` restores the ligands column of both inputs to lists
before returning, but the merged table it returns keeps the
tuple-coerced ligands cells (the restore loop runs over the two inputs
only), so an accumulated split table no longer has list-valued
ligands. -/
theorem merge_df_splits_restores_inputs_but_merged_keeps_tuples
    (first second : List ChainRecord) (split : String)
    (h1 : first.all (fun r => r.ligands.isPyList) = true)
    (h2 : second.all (fun r => r.ligands.isPyList) = true) :
    ((merge_df_splits first second split).1.all
        (fun r => r.ligands.isPyList) = true) ∧
      ((merge_df_splits first second split).2.1.all
        (fun r => r.ligands.isPyList) = true) ∧
      ((merge_df_splits first second split).2.2.all
        (fun r => r.ligands.isPyTuple) = true) := by
  refine ⟨?_, ?_, ?_⟩
  · simp only [merge_df_splits, List.all_eq_true, List.mem_map]
    rintro r ⟨r', -, rfl⟩
    exact LigandsCell.toListCell_isPyList _
  · simp only [merge_df_splits, List.all_eq_true, List.mem_map]
    rintro r ⟨r', -, rfl⟩
    exact LigandsCell.toListCell_isPyList _
  · simp only [merge_df_splits, List.all_eq_true, List.mem_map]
    rintro r ⟨r', hr', rfl⟩
    have hmem := mem_pdMergeInnerAllColumns hr'
    simp only [List.mem_map] at hmem
    obtain ⟨r₀, -, rfl⟩ := hmem
    exact LigandsCell.toTupleCell_isPyTuple _

/-- Witness for C10 at two concrete single-row tables with list-valued
ligands. -/
theorem merge_df_splits_restores_inputs_witness :
    ((merge_df_splits [sampleRec 1] [sampleRec 1] "train").1.all
        (fun r => r.ligands.isPyList) = true) ∧
      ((merge_df_splits [sampleRec 1] [sampleRec 1] "train").2.1.all
        (fun r => r.ligands.isPyList) = true) ∧
      ((merge_df_splits [sampleRec 1] [sampleRec 1] "train").2.2.all
        (fun r => r.ligands.isPyTuple) = true) :=
  merge_df_splits_restores_inputs_but_merged_keeps_tuples
    [sampleRec 1] [sampleRec 1] "train" (by decide) (by decide)

/-! ## Claim C3: support lemmas on the dict and the merge -/

/-- Replacement branch of `dictInsert`: looking the replaced key up
yields the new value. -/
theorem dictFind?_map_replace {β : Type*} (d : List (String × β)) (k : String)
    (v : β) (hd : (d.any fun kv => decide (kv.1 = k)) = true) :
    dictFind? (d.map fun kv => if kv.1 = k then (k, v) else kv) k = some v := by
  induction d with
  | nil => simp at hd
  | cons kv rest ih =>
      simp only [List.any_cons, Bool.or_eq_true, decide_eq_true_eq] at hd
      by_cases hk : kv.1 = k
      · rw [List.map_cons, if_pos hk, dictFind?, if_pos rfl]
      · rw [List.map_cons, if_neg hk, dictFind?, if_neg hk]
        exact ih (hd.resolve_left hk)

/-- Fresh branch of `dictInsert`: appending a new binding makes the key
resolve to it. -/
theorem dictFind?_append_fresh {β : Type*} (d : List (String × β)) (k : String)
    (v : β) (hd : (d.any fun kv => decide (kv.1 = k)) = false) :
    dictFind? (d ++ [(k, v)]) k = some v := by
  induction d with
  | nil =>
      rw [List.nil_append]
      rw [dictFind?, if_pos rfl]
  | cons kv rest ih =>
      simp only [List.any_cons, Bool.or_eq_false_iff, decide_eq_false_iff_not] at hd
      rw [List.cons_append, dictFind?, if_neg hd.1]
      exact ih (by simpa using hd.2)

/-- `d[k] = v` followed by a lookup of `k` yields `v`. -/
theorem dictFind?_dictInsert_self {β : Type*} (d : List (String × β))
    (k : String) (v : β) : dictFind? (dictInsert d k v) k = some v := by
  rw [dictInsert]
  by_cases h : (d.any fun kv => decide (kv.1 = k)) = true
  · rw [if_pos h]
    exact dictFind?_map_replace d k v h
  · rw [if_neg h]
    exact dictFind?_append_fresh d k v (by
      simp only [Bool.not_eq_true] at h
      exact h)

/-- Replacing key `k` does not change lookups of other keys (replacement
branch). -/
theorem dictFind?_map_replace_ne {β : Type*} (d : List (String × β))
    (k : String) (v : β) (k' : String) (hne : k' ≠ k) :
    dictFind? (d.map fun kv => if kv.1 = k then (k, v) else kv) k' =
      dictFind? d k' := by
  induction d with
  | nil => rfl
  | cons kv rest ih =>
      by_cases hk : kv.1 = k
      · rw [List.map_cons, if_pos hk, dictFind?, dictFind?,
          if_neg (Ne.symm hne), if_neg (fun h => hne (h.symm.trans hk))]
        exact ih
      · rw [List.map_cons, if_neg hk, dictFind?, dictFind?]
        by_cases h2 : kv.1 = k'
        · rw [if_pos h2, if_pos h2]
        · rw [if_neg h2, if_neg h2]
          exact ih

/-- Appending a binding for key `k` does not change lookups of other
keys (fresh branch). -/
theorem dictFind?_append_singleton_ne {β : Type*} (d : List (String × β))
    (k : String) (v : β) (k' : String) (hne : k' ≠ k) :
    dictFind? (d ++ [(k, v)]) k' = dictFind? d k' := by
  induction d with
  | nil =>
      rw [List.nil_append]
      simp only [dictFind?]
      rw [if_neg (Ne.symm hne)]
  | cons kv rest ih =>
      rw [List.cons_append, dictFind?, dictFind?]
      by_cases h2 : kv.1 = k'
      · rw [if_pos h2, if_pos h2]
      · rw [if_neg h2, if_neg h2]
        exact ih

/-- `d[k] = v` does not change lookups of other keys. -/
theorem dictFind?_dictInsert_ne {β : Type*} (d : List (String × β))
    (k : String) (v : β) (k' : String) (hne : k' ≠ k) :
    dictFind? (dictInsert d k v) k' = dictFind? d k' := by
  rw [dictInsert]
  by_cases h : (d.any fun kv => decide (kv.1 = k)) = true
  · rw [if_pos h]
    exact dictFind?_map_replace_ne d k v k' hne
  · rw [if_neg h]
    exact dictFind?_append_singleton_ne d k v k' hne

/-- The tuple coercion does not change a row's key content. -/
theorem rowKey_coerceRowTuple (r : ChainRecord) :
    rowKey (coerceRowTuple r) = rowKey r := by
  cases r with
  | mk id pdb chain length molecule_type name sequence split ligands
      source resolution deposition_date experiment_type =>
      cases ligands <;> rfl

/-- Overwriting the split label does not change a row's key content. -/
theorem rowKey_setSplit (r : ChainRecord) (s : String) :
    rowKey { r with split := s } = rowKey r := rfl

/-- Every row of the merged block carries the key content of some row of
the previously accumulated block: the inner join can only narrow. -/
theorem merge_df_splits_keysub (prev fresh : List ChainRecord) (s : String) :
    ∀ r ∈ (merge_df_splits prev fresh s).2.2, rowKey r ∈ prev.map rowKey := by
  intro r hr
  simp only [merge_df_splits, List.mem_map] at hr
  obtain ⟨r', hr', rfl⟩ := hr
  have h1 := mem_pdMergeInnerAllColumns hr'
  simp only [List.mem_map] at h1
  obtain ⟨r0, hr0, rfl⟩ := h1
  rw [rowKey_setSplit, rowKey_coerceRowTuple]
  exact List.mem_map.mpr ⟨r0, hr0, rfl⟩

/-- Key-content inclusion is transitive across tables. -/
theorem rowKey_sub_trans {a b c : List ChainRecord}
    (hab : ∀ r ∈ a, rowKey r ∈ b.map rowKey)
    (hbc : ∀ r ∈ b, rowKey r ∈ c.map rowKey) :
    ∀ r ∈ a, rowKey r ∈ c.map rowKey := by
  intro r hr
  obtain ⟨r', hr', heq⟩ := List.mem_map.mp (hab r hr)
  rw [← heq]
  exact hbc r' hr'

/-- A failed iteration poisons the whole update fold. -/
theorem foldl_updateSplitEntry_none (names : List String) :
    names.foldl updateSplitEntry none = none := by
  induction names with
  | nil => rfl
  | cons s rest ih => simpa [updateSplitEntry] using ih

/-- Shape of a successful `updateSplitEntry` step: both dicts get the
same block written under the split name — the freshly computed block on
first accumulation, the inner-join merge afterwards. -/
theorem updateSplitEntry_some_shape
    (acc0 acc1 : List (String × List ChainRecord) ×
      List (String × Option (List ChainRecord))) (s0 : String)
    (h : updateSplitEntry (some acc0) s0 = some acc1) :
    ∃ X, acc1 = (dictInsert acc0.1 s0 X, dictInsert acc0.2 s0 (some X)) ∧
      ((dictFind? acc0.2 s0 = some none) ∨
        (∃ prev_tbl df_split,
          dictFind? acc0.2 s0 = some (some prev_tbl) ∧
          dictFind? acc0.1 s0 = some df_split ∧
          X = (merge_df_splits prev_tbl df_split s0).2.2)) := by
  rw [updateSplitEntry, Option.some_bind] at h
  cases hfind1 : dictFind? acc0.1 s0 with
  | none => rw [hfind1] at h; simp at h
  | some df_split =>
      rw [hfind1, Option.some_bind] at h
      cases hfind2 : dictFind? acc0.2 s0 with
      | none => rw [hfind2] at h; simp at h
      | some previous =>
          rw [hfind2, Option.some_bind] at h
          cases previous with
          | none =>
              exact ⟨df_split, (Option.some.inj h).symm, Or.inl rfl⟩
          | some prev_tbl =>
              exact ⟨(merge_df_splits prev_tbl df_split s0).2.2,
                (Option.some.inj h).symm,
                Or.inr ⟨prev_tbl, df_split, rfl, rfl, rfl⟩⟩

/-- Fold invariant of the `split_clusters` update loop: an entry that is
populated both before and after the loop can only have lost key content
(the loop replaces it by an inner-join merge, never extends it). -/
theorem foldl_updateSplitEntry_shrinks :
    ∀ (names : List String)
      (acc0 res : List (String × List ChainRecord) ×
        List (String × Option (List ChainRecord))),
      names.foldl updateSplitEntry (some acc0) = some res →
      ∀ s prev next, dictFind? acc0.2 s = some (some prev) →
        dictFind? res.2 s = some (some next) →
        ∀ r ∈ next, rowKey r ∈ prev.map rowKey := by
  intro names
  induction names with
  | nil =>
      intro acc0 res hfold s prev next hprev hnext
      simp only [List.foldl_nil] at hfold
      obtain rfl : acc0 = res := Option.some.inj hfold
      rw [hprev] at hnext
      obtain rfl : prev = next := by simpa using hnext
      intro r hr
      exact List.mem_map.mpr ⟨r, hr, rfl⟩
  | cons s0 rest ih =>
      intro acc0 res hfold s prev next hprev hnext
      rw [List.foldl_cons] at hfold
      cases hstep : updateSplitEntry (some acc0) s0 with
      | none =>
          rw [hstep, foldl_updateSplitEntry_none] at hfold
          exact absurd hfold (by simp)
      | some acc1 =>
          rw [hstep] at hfold
          obtain ⟨X, rfl, hcases⟩ := updateSplitEntry_some_shape acc0 acc1 s0 hstep
          by_cases hs : s = s0
          · subst hs
            rcases hcases with hnone | ⟨prev_tbl, df_split, hfind2, _, rfl⟩
            · rw [hprev] at hnone
              exact absurd (Option.some.inj hnone) (by simp)
            · rw [hprev] at hfind2
              obtain rfl : prev = prev_tbl := by simpa using (Option.some.inj hfind2)
              have hnew : dictFind? (dictInsert acc0.2 s
                  (some ((merge_df_splits prev df_split s).2.2))) s =
                  some (some ((merge_df_splits prev df_split s).2.2)) :=
                dictFind?_dictInsert_self _ _ _
              have hsub := ih _ res hfold s _ next hnew hnext
              exact rowKey_sub_trans hsub (merge_df_splits_keysub prev df_split s)
          · have hkeep : dictFind? (dictInsert acc0.2 s0 (some X)) s =
                some (some prev) := by
              rw [dictFind?_dictInsert_ne _ _ _ _ hs]
              exact hprev
            exact ih _ res hfold s prev next hkeep hnext

/-! ## Claim C3 -/

/-- The claim's superset assertion fails on the code: starting from a
state whose accumulated `"a"` split holds `sampleRec 1` and invoking
`split_clusters` with `update=True` on the disjoint one-row table
`[sampleRec 2]`, the accumulated `"a"` entry becomes the *empty* table —
the previously held row is lost, so the new row set is not a superset of
the old one. -/
theorem split_clusters_superset_counterexample :
    (split_clusters stShrink [sampleRec 2] true).map
        (fun p => dictFind? p.2.df_splits "a") = some (some (some [])) ∧
      dictFind? stShrink.df_splits "a" = some (some [sampleRec 1]) ∧
      sampleRec 1 ∉ ([] : List ChainRecord) := by
  refine ⟨?_, by decide, by simp⟩
  unfold split_clusters
  rw [show stShrink.split_ratios = some [(1 : ℚ)] from rfl, Option.some_bind,
    show stShrink.splits = ["a"] from rfl,
    show stShrink.assign_leftover_rows_to_split_n = 0 from rfl,
    split_df_proportionally_singleton (sampleRec 2)]
  decide

/-- Claim C3, amended: with splits configured, each `df_splits` entry is
created on the first `update=True` invocation, and on every later
invocation is replaced by the inner-join merge of the stored entry with
the fresh block — so, comparing rows by their content without the
mutable `split` label and the list/tuple ligands representation, the
entry after a subsequent invocation is a subset of (or equal to) the
entry before it; it is never grown. -/
theorem split_clusters_update_shrinks_entries
    (st : MState) (df : List ChainRecord)
    (d : List (String × List ChainRecord)) (st' : MState)
    (hrun : split_clusters st df true = some (d, st'))
    (s : String) (prev next : List ChainRecord)
    (hprev : dictFind? st.df_splits s = some (some prev))
    (hnext : dictFind? st'.df_splits s = some (some next)) :
    ∀ r ∈ next, rowKey r ∈ prev.map rowKey := by
  unfold split_clusters at hrun
  cases hrat : st.split_ratios with
  | none => rw [hrat] at hrun; simp at hrun
  | some split_ratios =>
      rw [hrat, Option.some_bind] at hrun
      cases hsp : split_df_proportionally df st.splits split_ratios
          st.assign_leftover_rows_to_split_n 42 with
      | none => rw [hsp] at hrun; simp at hrun
      | some df_splits0 =>
          rw [hsp, Option.some_bind, if_pos rfl] at hrun
          cases hfold : st.splits.foldl updateSplitEntry
              (some (df_splits0, st.df_splits)) with
          | none => rw [hfold] at hrun; simp at hrun
          | some res =>
              rw [hfold, Option.map_some'] at hrun
              have hpair := Option.some.inj hrun
              rw [Prod.mk.injEq] at hpair
              obtain ⟨-, hst'⟩ := hpair
              subst hst'
              exact foldl_updateSplitEntry_shrinks st.splits
                (df_splits0, st.df_splits) res hfold s prev next hprev hnext

/-- Witness for the amended C3 at a concrete second invocation: the
state accumulated `[sampleRec 1, sampleRec 2]` under `"a"`, the fresh
table is `[sampleRec 1]`, and the merged entry `[mergedSampleRec1]`
carries key content present in the previous entry. -/
theorem split_clusters_update_shrinks_entries_witness :
    rowKey mergedSampleRec1 ∈ [sampleRec 1, sampleRec 2].map rowKey :=
  split_clusters_update_shrinks_entries stTwo [sampleRec 1]
    [("a", [mergedSampleRec1])]
    { stTwo with df_splits := [("a", some [mergedSampleRec1])] }
    (by
      unfold split_clusters
      rw [show stTwo.split_ratios = some [(1 : ℚ)] from rfl, Option.some_bind,
        show stTwo.splits = ["a"] from rfl,
        show stTwo.assign_leftover_rows_to_split_n = 0 from rfl,
        split_df_proportionally_singleton (sampleRec 1)]
      decide)
    "a" [sampleRec 1, sampleRec 2] [mergedSampleRec1]
    (by decide) (by decide) mergedSampleRec1 (by decide)

end Theorems

end PdbData
